import Mathlib

/-!
# Verification of the event listing core (`src/App.js`)

Shallow embedding of the filtering / sorting / aggregation / update logic of
the React events app. JavaScript values are modelled as follows:

* JS strings are Lean `String`s; the JS emptiness test `!s` on a string is
  `s = ""`, and optional string-valued fields are `Option String` (a missing
  field, `null` or `undefined`, is `none`).  Character operations
  (`toLowerCase`, `includes`) act on the string's character list.
* Calendar dates travel through the app as ISO `YYYY-MM-DD` strings and are
  consumed only through `parseISO` / `new Date`, i.e. as millisecond
  timestamps.  We model a parsed date directly as its timestamp, an `Int`
  (dates before the Unix epoch parse to negative timestamps).  The `data`
  field of an event is `Option Int` (`none` = field absent or empty string).
* JS numbers are IEEE-754 binary64 doubles.  The integer additions of the
  rating sum are exact in binary64 (all partial sums stay far below `2^53`),
  so they are modelled over `Int`; the division `sum / length` is genuinely
  inexact and is modelled by `fpDiv`, the exact rational value of the
  correctly rounded (round-to-nearest, ties-to-even, 53-bit significand)
  binary64 quotient; `toFixed(1)` is then decimal rounding of that exact
  rational value (`roundTo1`).
* `fetch` outcomes are reified as a sum: a parsed successful body, a non-ok
  HTTP status, or a thrown transport/parsing error carrying its message.
-/

/-- A comment record (`comentario`), as produced by the API.
`classificacao` is optional: `com.classificacao || 0` in the source treats a
missing rating as 0 (a literal rating 0 is also falsy in JS, but `0 || 0 = 0`,
so `Option.getD 0` is faithful). -/
structure Comment where
  id : Nat
  nome_usuario : Option String
  comentario : Option String
  classificacao : Option Int
  deriving DecidableEq, Repr

/-- An event record (`evento`).  `data` holds the parsed timestamp of the
event's ISO date, `none` when the field is absent/empty.  `comentarios` is
`Option (List Comment)`: the API may omit the field entirely. -/
structure Event where
  id : Nat
  nome : Option String
  data : Option Int
  duracao_qtd : Option Nat
  duracao_tipo : Option String
  comentarios : Option (List Comment)
  deriving DecidableEq, Repr

/-- `strIncludes hay needle` mirrors JS `hay.includes(needle)` on lists of
characters: `needle` occurs contiguously in `hay`. -/
def strIncludes (hay needle : List Char) : Bool :=
  needle.isPrefixOf hay ||
    match hay with
    | [] => false
    | _ :: t => strIncludes t needle

/-- `s.toLowerCase()` : character-wise lowercasing of a JS string, acting on
its character list. -/
def jsToLower (s : List Char) : List Char := s.map Char.toLower

/-- The filter predicate of `filteredEvents` (App.js lines 70–89), translated
branch by branch:
`matchesSearch = !searchTerm || (event && event.nome && event.nome.toLowerCase().includes(searchTerm.toLowerCase()))`;
`matchesDateRange` starts `true` and is reassigned to
`isEqual(parseISO(event.data), parseISO(dateFilter))` only when both
`event.data` and `dateFilter` are non-empty (the source's `else if (dateFilter)`
branch is dead code: it is only reached when `dateFilter` is falsy).
`dateFilter : Option Int` is the parsed filter date, `none` for the empty
string. -/
def eventKeep (searchTerm : String) (dateFilter : Option Int) (event : Event) : Bool :=
  let matchesSearch : Bool :=
    (searchTerm = "") ||
      (match event.nome with
       | some nome => strIncludes (jsToLower nome.data) (jsToLower searchTerm.data)
       | none => false)
  let matchesDateRange : Bool :=
    match event.data with
    | some eventDate =>
      match dateFilter with
      | some df => eventDate = df
      | none => true
    | none => true
  matchesSearch && matchesDateRange

/-- `filteredEvents` (App.js line 70): `events.filter(...)`. -/
def filteredEvents (events : List Event) (searchTerm : String) (dateFilter : Option Int) :
    List Event :=
  events.filter (eventKeep searchTerm dateFilter)

/-- "`a` case-insensitively contains `b`", as the specification words it:
after lowercasing, `b` occurs contiguously inside `a`. -/
def containsCI (hay needle : List Char) : Prop :=
  ∃ pre post, jsToLower hay = pre ++ jsToLower needle ++ post

/-- The filter condition exactly as the specification words it: keep an event
iff (searchTerm is empty OR the event has a name that case-insensitively
contains searchTerm) AND (dateFilter is empty OR the event has no date OR the
event's date equals the filter date). -/
def keepSpec (searchTerm : String) (dateFilter : Option Int) (e : Event) : Prop :=
  (searchTerm = "" ∨ ∃ n, e.nome = some n ∧ containsCI n.data searchTerm.data) ∧
  (dateFilter = none ∨ e.data = none ∨ e.data = dateFilter)

/-! ## Sorting (App.js lines 92–96) -/

/-- `a.data ? new Date(a.data) : 0` : the sort key of an event is its parsed
timestamp, a missing (or empty) date contributing `0`, the Unix epoch. -/
def dateKey (e : Event) : Int := e.data.getD 0

/-- The arrangement demanded by the comparator `(a, b) => dateB - dateA`:
`a` may precede `b` exactly when the comparator is `≤ 0` at `(a, b)`,
i.e. when `dateKey b ≤ dateKey a` — descending by key. -/
def jsOrder (a b : Event) : Prop := dateKey b ≤ dateKey a

instance : DecidableRel jsOrder :=
  fun a b => inferInstanceAs (Decidable (dateKey b ≤ dateKey a))

instance : IsTotal Event jsOrder :=
  ⟨fun a b => le_total (dateKey b) (dateKey a)⟩

instance : IsTrans Event jsOrder :=
  ⟨fun _ _ _ hab hbc => le_trans hbc hab⟩

/-- `sortedEvents` (App.js line 92): `filteredEvents.sort(comparator)`.
ECMAScript `Array.prototype.sort` is specified as a stable sort arranging the
array according to the (consistent) comparator; we model it by the stable
`List.insertionSort` under `jsOrder`.  The source sorts the already filtered
list; the definition takes the list to sort as its argument. -/
def sortedEvents (events : List Event) : List Event :=
  events.insertionSort jsOrder

/-- The elements of `l` carrying sort key `k`, in order: used to state
stability ("ties keep the input's relative order"). -/
def keySlice (k : Int) (l : List Event) : List Event :=
  l.filter fun e => decide (dateKey e = k)

/-! ## Binary64 arithmetic

The rating average is computed by JS in IEEE-754 binary64.  The sum and the
length are integers below `2^53`, hence exact doubles; only the division
rounds.  `fpDiv` returns the exact rational value of the binary64 quotient. -/

/-- Number of binary digits of `n` (`0` for `0`).  The first argument is
fuel, always called with `n` itself, which bounds the number of halvings, so
the recursion is structural and the kernel can evaluate it. -/
def bitLenAux : Nat → Nat → Nat
  | 0, _ => 0
  | fuel+1, n => if n = 0 then 0 else bitLenAux fuel (n / 2) + 1

/-- Bit length of a natural number: `2 ^ (bitLen n - 1) ≤ n < 2 ^ bitLen n`
for `n ≥ 1`. -/
def bitLen (n : Nat) : Nat := bitLenAux n n

/-- `⌊log2 (a / b)⌋` for naturals `a, b ≥ 1`: from the bit lengths the ratio
lies in `(2 ^ (la - lb - 1), 2 ^ (la - lb + 1))`, and the comparison
`2 ^ (la - lb) ≤ a / b`, cleared of denominators, picks the right endpoint. -/
def floorLog2Ratio (a b : Nat) : Int :=
  if b * 2 ^ bitLen a ≤ a * 2 ^ bitLen b then (bitLen a : Int) - bitLen b
  else (bitLen a : Int) - bitLen b - 1

/-- Round a rational to the nearest integer, ties to even — the IEEE-754
default rounding. -/
def roundHalfEven (q : ℚ) : ℤ :=
  if q - ⌊q⌋ < 1/2 then ⌊q⌋
  else if (1:ℚ)/2 < q - ⌊q⌋ then ⌊q⌋ + 1
  else if ⌊q⌋ % 2 = 0 then ⌊q⌋ else ⌊q⌋ + 1

/-- The IEEE-754 binary64 value of the quotient `a / b` as an exact rational:
the real quotient is scaled to the quantum `2 ^ (e - 52)` given by its
binary magnitude `e` (clamped at the subnormal quantum `2 ^ (-1074)`) and
rounded to nearest, ties to even.  `b = 0` cannot reach the division in the
source (the length-zero guard returns first), and overflow to `Infinity`
(quotients `≥ 2^1024`) is left unmodelled: for `|a| < 2^53` and
`0 < b < 2^53` — which covers every rating sum and comment count the
surrounding code produces exactly — this is precisely the double JS
computes. -/
def fpDiv (a : Int) (b : Nat) : ℚ :=
  if a = 0 ∨ b = 0 then 0
  else
    (roundHalfEven ((a : ℚ) / (b : ℚ) /
        (2:ℚ) ^ (max (floorLog2Ratio a.natAbs b - 52) (-1074))) : ℚ)
      * (2:ℚ) ^ (max (floorLog2Ratio a.natAbs b - 52) (-1074))

/-! ## Average rating (App.js lines 193–203) -/

/-- Result of `calculateAverageRating`: either the string `'N/A'` or the
number produced by `.toFixed(1)`, modelled as an exact rational. -/
inductive AvgRating where
  | na
  | val (q : ℚ)
  deriving DecidableEq, Repr

/-- `x.toFixed(1)` on a JS number, modelled exactly over `ℚ`: the multiple of
`1/10` closest to `x`, ties resolved towards the larger value (ECMAScript:
"If there are two such n, pick the larger n"), which is `⌊10x + 1/2⌋ / 10`,
i.e. Mathlib's `round`. -/
def roundTo1 (q : ℚ) : ℚ := (round (q * 10) : ℚ) / 10

/-- `calculateAverageRating` (App.js lines 193–203), translated guard by
guard: `'N/A'` when the event is null/undefined, its `comentarios` field is
absent, or the comment list is empty; otherwise the `reduce` sum of
`com.classificacao || 0` (exact in binary64) divided by the length in
binary64 (`fpDiv`), then `toFixed(1)` (`roundTo1`). -/
def calculateAverageRating : Option Event → AvgRating
  | none => .na
  | some event =>
    match event.comentarios with
    | none => .na
    | some comentarios =>
      if comentarios.length = 0 then .na
      else
        .val (roundTo1
          (fpDiv (comentarios.foldl (fun acc com => acc + com.classificacao.getD 0) 0)
            comentarios.length))

/-! ## Application state and the HTTP handlers -/

/-- The pieces of component state the handlers under verification touch.
Pure presentation state (modal visibility, controlled form inputs, the
`loading` flag, `expandedEventId`) is omitted: no claim mentions it. -/
structure AppState where
  events : List Event
  selectedEvent : Option Event
  error : Option String
  deriving DecidableEq, Repr

/-- Reified outcome of one `fetch` call as the handlers observe it:
a successfully parsed body, a response with `response.ok` false (carrying the
status), or a throw during transport or body parsing (carrying `err.message`). -/
inductive HttpOutcome (α : Type) where
  | ok (body : α)
  | httpError (status : Nat)
  | transportError (msg : String)
  deriving DecidableEq, Repr

/-- `{...event, comentarios: event.comentarios || []}` — the normalisation
spread used both in `fetchData` (App.js lines 47–50) and on the created event
in `handleSubmitNewEvent` (lines 115–118). -/
def withDefaultComments (event : Event) : Event :=
  { event with comentarios := some (event.comentarios.getD []) }

/-- `fetchData` (App.js lines 35–58) as a state transformer over the reified
outcome of `fetch(baseUrl + 'eventos')`: on success the events are stored
normalised; on a non-ok status the thrown `Error('Failed to fetch events')`
is caught and its message stored; on a transport/parsing throw the thrown
message is stored. -/
def fetchData (s : AppState) (outcome : HttpOutcome (List Event)) : AppState :=
  match outcome with
  | .ok eventsData => { s with events := eventsData.map withDefaultComments }
  | .httpError _ => { s with error := some "Failed to fetch events" }
  | .transportError msg => { s with error := some msg }

/-- `handleSubmitNewEvent` (App.js lines 98–131): on success the created
event, with `comentarios` defaulted, is appended to `events`; on failure the
caught message is stored and nothing else changes. -/
def handleSubmitNewEvent (s : AppState) (outcome : HttpOutcome Event) : AppState :=
  match outcome with
  | .ok createdEvent => { s with events := s.events ++ [withDefaultComments createdEvent] }
  | .httpError _ => { s with error := some "Failed to create event" }
  | .transportError msg => { s with error := some msg }

/-- The `updatedEvents` map of `handleSubmitNewComment` (App.js lines
158–166): the event whose `id` matches gets `createdComment` appended to
`comentarios` (defaulted to `[]` first); every other event is returned as is. -/
def appendCommentToEvents (events : List Event) (eventId : Nat) (createdComment : Comment) :
    List Event :=
  events.map fun event =>
    if event.id = eventId then
      { event with comentarios := some (event.comentarios.getD [] ++ [createdComment]) }
    else event

/-- `handleSubmitNewComment` (App.js lines 134–187): on success the events
are updated through `appendCommentToEvents` and, when the selected event's id
matches, the selected event gets the same comment appended; on failure the
caught message is stored and nothing else changes. -/
def handleSubmitNewComment (s : AppState) (eventId : Nat) (outcome : HttpOutcome Comment) :
    AppState :=
  match outcome with
  | .ok createdComment =>
    let s1 := { s with events := appendCommentToEvents s.events eventId createdComment }
    match s.selectedEvent with
    | some sel =>
      if sel.id = eventId then
        let sel' := { sel with comentarios := some (sel.comentarios.getD [] ++ [createdComment]) }
        { s1 with selectedEvent := some sel' }
      else s1
    | none => s1
  | .httpError _ => { s with error := some "Failed to create comment" }
  | .transportError msg => { s with error := some msg }

/-! ## Concrete fixtures for witnesses and counterexamples -/

/-- An event with a name but no date. -/
def evConf : Event :=
  { id := 1, nome := some "TechConf 2024", data := none, duracao_qtd := some 2,
    duracao_tipo := some "dias", comentarios := some [] }

/-- A comment with rating 4. -/
def com4 : Comment :=
  { id := 10, nome_usuario := some "Ana", comentario := some "Otimo", classificacao := some 4 }

/-- A comment with rating 2. -/
def com2 : Comment :=
  { id := 11, nome_usuario := none, comentario := some "Mediano", classificacao := some 2 }

/-- An event whose comments have ratings `[4, 2]`. -/
def ev42 : Event :=
  { id := 2, nome := some "Feira", data := some 1000, duracao_qtd := none,
    duracao_tipo := none, comentarios := some [com4, com2] }

/-- An event dated one day before the Unix epoch: `new Date('1969-12-31')`
is the negative timestamp `-86400000`. -/
def evOld : Event :=
  { id := 3, nome := some "Old", data := some (-86400000), duracao_qtd := none,
    duracao_tipo := none, comentarios := none }

/-- An event with no date at all. -/
def evNoDate : Event :=
  { id := 4, nome := some "Undated", data := none, duracao_qtd := none,
    duracao_tipo := none, comentarios := none }

/-- A create-event response that omits the `comentarios` field. -/
def evNoComments : Event :=
  { id := 5, nome := some "Novo", data := some 5000, duracao_qtd := some 1,
    duracao_tipo := some "horas", comentarios := none }

/-- The initial application state: no events, nothing selected, no error. -/
def st0 : AppState := { events := [], selectedEvent := none, error := none }

/-- Three events with distinct ids, for the append-comment frame witness. -/
def wEv1 : Event :=
  { id := 1, nome := some "A", data := some 10, duracao_qtd := none,
    duracao_tipo := none, comentarios := some [com4] }

/-- Second of the three events; the append-comment witness targets its id. -/
def wEv2 : Event :=
  { id := 2, nome := some "B", data := some 20, duracao_qtd := none,
    duracao_tipo := none, comentarios := some [com2] }

/-- Third of the three events. -/
def wEv3 : Event :=
  { id := 3, nome := some "C", data := none, duracao_qtd := none,
    duracao_tipo := none, comentarios := none }

/-- A state holding the three events, with the second one selected. -/
def st3 : AppState :=
  { events := [wEv1, wEv2, wEv3], selectedEvent := some wEv2, error := none }

/-- The comment the append-comment witnesses add. -/
def comNew : Comment :=
  { id := 12, nome_usuario := some "Bea", comentario := some "Legal", classificacao := some 5 }

/-- An event missing its name. -/
def evNoName : Event :=
  { id := 6, nome := none, data := some 100, duracao_qtd := none,
    duracao_tipo := none, comentarios := none }

/-- `wEv2` after `comNew` is appended to its comments. -/
def wEv2' : Event :=
  { wEv2 with comentarios := some (wEv2.comentarios.getD [] ++ [comNew]) }

/-- A bare comment carrying only an id and a rating. -/
def comOf (i : Nat) (r : Int) : Comment :=
  { id := i, nome_usuario := none, comentario := none, classificacao := some r }

/-- An event with twenty comments whose ratings sum to 3 (three 1s and
seventeen 0s): its exact mean is `3/20 = 0.15`, whose nearest binary64
double is strictly below `0.15`, so the program's `toFixed(1)` yields 0.1
while the exactly rounded mean is 0.2. -/
def evTwenty : Event :=
  { id := 7, nome := some "Maratona", data := none, duracao_qtd := none,
    duracao_tipo := none,
    comentarios := some
      [comOf 0 1, comOf 1 1, comOf 2 1, comOf 3 0, comOf 4 0, comOf 5 0,
        comOf 6 0, comOf 7 0, comOf 8 0, comOf 9 0, comOf 10 0, comOf 11 0,
        comOf 12 0, comOf 13 0, comOf 14 0, comOf 15 0, comOf 16 0,
        comOf 17 0, comOf 18 0, comOf 19 0] }

/-! ## Helper lemmas -/

theorem isPrefixOf_spec (needle hay : List Char) :
    needle.isPrefixOf hay = true ↔ ∃ rest, hay = needle ++ rest := by
  induction needle generalizing hay with
  | nil => simp [List.isPrefixOf]
  | cons c t ih =>
    cases hay with
    | nil => simp [List.isPrefixOf]
    | cons d u =>
      simp only [List.isPrefixOf, Bool.and_eq_true, beq_iff_eq, ih, List.cons_append,
        List.cons.injEq]
      constructor
      · rintro ⟨rfl, rest, rfl⟩; exact ⟨rest, rfl, rfl⟩
      · rintro ⟨rest, rfl, rfl⟩; exact ⟨rfl, rest, rfl⟩

theorem strIncludes_spec (hay needle : List Char) :
    strIncludes hay needle = true ↔ ∃ pre post, hay = pre ++ needle ++ post := by
  induction hay with
  | nil =>
    rw [strIncludes]
    simp only [Bool.or_false, isPrefixOf_spec]
    constructor
    · rintro ⟨rest, h⟩; exact ⟨[], rest, by simpa using h⟩
    · rintro ⟨pre, post, h⟩
      rcases List.append_eq_nil.mp h.symm with ⟨h1, h2⟩
      rcases List.append_eq_nil.mp h1 with ⟨_, h3⟩
      exact ⟨post, by simp [h3, h2]⟩
  | cons c t ih =>
    rw [strIncludes]
    simp only [Bool.or_eq_true, isPrefixOf_spec, ih]
    constructor
    · rintro (⟨rest, hr⟩ | ⟨pre, post, hp⟩)
      · exact ⟨[], rest, by simpa using hr⟩
      · exact ⟨c :: pre, post, by simp [hp]⟩
    · rintro ⟨pre, post, h⟩
      cases pre with
      | nil => exact Or.inl ⟨post, by simpa using h⟩
      | cons x pre' =>
        simp only [List.cons_append, List.cons.injEq] at h
        exact Or.inr ⟨pre', post, h.2⟩

theorem eventKeep_iff (searchTerm : String) (dateFilter : Option Int) (e : Event) :
    eventKeep searchTerm dateFilter e = true ↔ keepSpec searchTerm dateFilter e := by
  unfold eventKeep keepSpec containsCI
  simp only [Bool.and_eq_true, Bool.or_eq_true, decide_eq_true_eq]
  constructor
  · rintro ⟨hs, hd⟩
    constructor
    · rcases hs with hs | hs
      · exact Or.inl hs
      · cases hn : e.nome with
        | none => simp [hn] at hs
        | some n =>
          rw [hn] at hs
          rcases (strIncludes_spec _ _).mp hs with ⟨pre, post, hsplit⟩
          exact Or.inr ⟨n, rfl, pre, post, hsplit⟩
    · cases hd2 : e.data with
      | none => exact Or.inr (Or.inl rfl)
      | some d =>
        cases hdf : dateFilter with
        | none => exact Or.inl rfl
        | some df =>
          rw [hd2, hdf] at hd
          simp only [decide_eq_true_eq] at hd
          exact Or.inr (Or.inr (by rw [hd]))
  · rintro ⟨hs, hd⟩
    constructor
    · rcases hs with hs | ⟨n, hn, pre, post, hsplit⟩
      · exact Or.inl hs
      · refine Or.inr ?_
        rw [hn]
        exact (strIncludes_spec _ _).mpr ⟨pre, post, hsplit⟩
    · cases hd2 : e.data with
      | none => simp
      | some d =>
        cases hdf : dateFilter with
        | none => simp
        | some df =>
          rcases hd with hd | hd | hd
          · exact absurd hd (by simp [hdf])
          · exact absurd hd (by simp [hd2])
          · rw [hd2, hdf] at hd
            simp only [Option.some.injEq] at hd
            simp [hd]

theorem foldl_classificacao (l : List Comment) (a : Int) :
    l.foldl (fun acc com => acc + com.classificacao.getD 0) a =
      a + (l.map fun com => com.classificacao.getD 0).sum := by
  induction l generalizing a with
  | nil => simp
  | cons c t ih => simp [List.foldl_cons, ih, add_assoc]

theorem keySlice_orderedInsert_of_ne (k : Int) (a : Event) (h : dateKey a ≠ k) :
    ∀ l : List Event, keySlice k (l.orderedInsert jsOrder a) = keySlice k l := by
  intro l
  induction l with
  | nil => simp [keySlice, h]
  | cons b t ih =>
    rw [List.orderedInsert]
    split
    · simp [keySlice, h]
    · simp only [keySlice] at ih
      simp [keySlice, List.filter_cons, ih]

theorem keySlice_orderedInsert_of_eq (k : Int) (a : Event) (h : dateKey a = k) :
    ∀ l : List Event, keySlice k (l.orderedInsert jsOrder a) = a :: keySlice k l := by
  intro l
  induction l with
  | nil => simp [keySlice, h]
  | cons b t ih =>
    rw [List.orderedInsert]
    split
    · simp [keySlice, h]
    · rename_i hins
      have hb : dateKey b ≠ k := by
        intro hbk
        exact hins (by simp [jsOrder, h, hbk])
      simp only [keySlice] at ih
      simp [keySlice, List.filter_cons, hb, ih]

theorem keySlice_sortedEvents (k : Int) (l : List Event) :
    keySlice k (sortedEvents l) = keySlice k l := by
  induction l with
  | nil => rfl
  | cons a t ih =>
    show keySlice k ((sortedEvents t).orderedInsert jsOrder a) = keySlice k (a :: t)
    by_cases h : dateKey a = k
    · rw [keySlice_orderedInsert_of_eq k a h, ih]
      simp [keySlice, List.filter_cons, h]
    · rw [keySlice_orderedInsert_of_ne k a h, ih]
      simp [keySlice, List.filter_cons, h]

theorem handleSubmitNewComment_ok_events (s : AppState) (eventId : Nat) (c : Comment) :
    (handleSubmitNewComment s eventId (.ok c)).events =
      appendCommentToEvents s.events eventId c := by
  rw [handleSubmitNewComment]
  cases s.selectedEvent with
  | none => rfl
  | some sel =>
    by_cases h : sel.id = eventId
    · simp [h]
    · simp [h]

theorem appendCommentToEvents_split (eventId : Nat) (c : Comment)
    (l1 l2 : List Event) (e : Event) (hid : e.id = eventId)
    (h1 : ∀ x ∈ l1, x.id ≠ eventId) (h2 : ∀ x ∈ l2, x.id ≠ eventId) :
    appendCommentToEvents (l1 ++ e :: l2) eventId c =
      l1 ++ { e with comentarios := some (e.comentarios.getD [] ++ [c]) } :: l2 := by
  unfold appendCommentToEvents
  rw [List.map_append, List.map_cons, if_pos hid]
  congr 1
  · conv_rhs => rw [show l1 = l1.map id from (List.map_id l1).symm]
    exact List.map_congr_left fun x hx => by simp [h1 x hx]
  · congr 1
    conv_rhs => rw [show l2 = l2.map id from (List.map_id l2).symm]
    exact List.map_congr_left fun x hx => by simp [h2 x hx]

theorem floorLog2Ratio_6_2 : floorLog2Ratio (Int.natAbs 6) 2 = 1 := by decide

theorem floorLog2Ratio_3_20 : floorLog2Ratio (Int.natAbs 3) 20 = -3 := by decide

/-- 6 and 2 are exact doubles and so is their quotient: `fpDiv` returns
exactly 3. -/
theorem fpDiv_6_2 : fpDiv 6 2 = 3 := by
  rw [fpDiv, if_neg (by norm_num), floorLog2Ratio_6_2,
    show max (1 - 52 : ℤ) (-1074) = -51 from by decide, roundHalfEven]
  norm_num

/-- The binary64 quotient of 3 by 20: `0.15` is not representable; the
nearest double is `5404319552844595 * 2 ^ (-55) = 0.1499999999999999944…`,
strictly below `0.15`. -/
theorem fpDiv_3_20 : fpDiv 3 20 = 5404319552844595 / 2 ^ 55 := by
  rw [fpDiv, if_neg (by norm_num), floorLog2Ratio_3_20,
    show max (-3 - 52 : ℤ) (-1074) = -55 from by decide, roundHalfEven]
  norm_num

/-- The program's average at ratings `[4, 2]`: the double mean is exactly 3
and `toFixed(1)` keeps it. -/
theorem calcAvg_ev42 : calculateAverageRating (some ev42) = .val 3 := by
  have h1 : calculateAverageRating (some ev42) = .val (roundTo1 (fpDiv 6 2)) := rfl
  rw [h1, fpDiv_6_2, roundTo1, round_eq]
  norm_num

/-- The program's average at twenty ratings summing to 3: the double mean is
just below `0.15`, so `toFixed(1)` yields `0.1`. -/
theorem calcAvg_evTwenty : calculateAverageRating (some evTwenty) = .val (1 / 10) := by
  have h1 : calculateAverageRating (some evTwenty) = .val (roundTo1 (fpDiv 3 20)) := rfl
  rw [h1, fpDiv_3_20, roundTo1, round_eq]
  norm_num

/-- The exact mean `3/20 = 0.15` rounded to one decimal place is `0.2`. -/
theorem roundTo1_3_20 : roundTo1 ((3 : ℚ) / 20) = 2 / 10 := by
  rw [roundTo1, round_eq]
  norm_num

/-! ## Claim theorems -/

/-- C1: filter keeps an event iff (searchTerm is empty OR the event has a
name that case-insensitively contains searchTerm) AND (dateFilter is empty OR
the event has no date OR the event's date equals dateFilter); in particular
an event missing a name is never kept under a non-empty searchTerm, and an
event missing a date passes the date filter whatever it is. -/
theorem filteredEvents_keep_iff (events : List Event) (searchTerm : String)
    (dateFilter dateFilter' : Option Int) (e : Event) :
    (e ∈ filteredEvents events searchTerm dateFilter ↔
      e ∈ events ∧ keepSpec searchTerm dateFilter e) ∧
    (e.nome = none → searchTerm ≠ "" → e ∉ filteredEvents events searchTerm dateFilter) ∧
    (e.data = none →
      (e ∈ filteredEvents events searchTerm dateFilter ↔
        e ∈ filteredEvents events searchTerm dateFilter')) := by
  have main : ∀ df : Option Int, e ∈ filteredEvents events searchTerm df ↔
      e ∈ events ∧ keepSpec searchTerm df e := by
    intro df
    rw [filteredEvents, List.mem_filter]
    exact and_congr_right fun _ => eventKeep_iff searchTerm df e
  refine ⟨main dateFilter, ?_, ?_⟩
  · intro hn hs hmem
    rcases ((main dateFilter).mp hmem).2.1 with h | ⟨n, hn2, _⟩
    · exact hs h
    · rw [hn] at hn2
      exact Option.noConfusion hn2
  · intro hdata
    have hk : eventKeep searchTerm dateFilter e = eventKeep searchTerm dateFilter' e := by
      simp only [eventKeep, hdata]
    rw [filteredEvents, filteredEvents, List.mem_filter, List.mem_filter, hk]

/-- Witness for C1 at concrete inputs: with searchTerm "conf" and a date
filter no event matches, the undated event named "TechConf 2024" is kept and
the nameless event is dropped. -/
theorem filteredEvents_keep_iff_witness :
    evConf ∈ filteredEvents [evConf, evNoName] "conf" (some 999) ∧
    evNoName ∉ filteredEvents [evConf, evNoName] "conf" (some 999) :=
  ⟨(filteredEvents_keep_iff [evConf, evNoName] "conf" (some 999) none evConf).1.mpr
      ⟨by decide,
        ⟨Or.inr ⟨"TechConf 2024", rfl, "tech".data, " 2024".data, by decide⟩,
          Or.inr (Or.inl rfl)⟩⟩,
    (filteredEvents_keep_iff [evConf, evNoName] "conf" (some 999) none evNoName).2.1
      rfl (by decide)⟩

/-- C6: filtering with an empty searchTerm and an empty dateFilter returns
the input list unchanged. -/
theorem filteredEvents_identity (events : List Event) :
    filteredEvents events "" none = events := by
  rw [filteredEvents]
  apply List.filter_eq_self.mpr
  intro e _
  simp only [eventKeep]
  cases e.data <;> simp

/-- C2 counterexample: for an event with twenty comments whose ratings sum
to 3 the program returns 0.1, while the exact arithmetic mean of the ratings
(`3/20 = 0.15`) rounded to one decimal place is 0.2 — averageRating does not
return the arithmetic mean rounded to one decimal place. -/
theorem calculateAverageRating_not_exact_mean :
    ((evTwenty.comentarios.getD []).map fun com => com.classificacao.getD 0).sum = 3 ∧
    (evTwenty.comentarios.getD []).length = 20 ∧
    calculateAverageRating (some evTwenty) = .val (1 / 10) ∧
    roundTo1 ((3 : ℚ) / 20) = 2 / 10 ∧
    (1 : ℚ) / 10 ≠ 2 / 10 :=
  ⟨by decide, by decide, calcAvg_evTwenty, roundTo1_3_20, by norm_num⟩

/-- C2 (amended): averageRating is `'N/A'` on an empty comment list and
otherwise the binary64 quotient of the integer rating sum (a missing rating
contributing 0) by the comment count, rounded to one decimal place with ties
towards the larger value — which agrees with the exactly rounded arithmetic
mean except where the double rounding of the quotient crosses a decimal
boundary: for ratings `[4, 2]` it is still 3.0, but for twenty ratings
summing to 3 it is 0.1, not 0.2. -/
theorem calculateAverageRating_fp :
    (∀ (e : Event) (l : List Comment), e.comentarios = some l →
      (l = [] → calculateAverageRating (some e) = .na) ∧
      (l ≠ [] → calculateAverageRating (some e) =
        .val (roundTo1 (fpDiv ((l.map fun com => com.classificacao.getD 0).sum)
          l.length)))) ∧
    calculateAverageRating (some ev42) = .val 3 ∧
    calculateAverageRating (some evTwenty) = .val (1 / 10) := by
  refine ⟨?_, calcAvg_ev42, calcAvg_evTwenty⟩
  intro e l h
  constructor
  · rintro rfl
    simp [calculateAverageRating, h]
  · intro hne
    have hlen : ¬ l.length = 0 := by simpa using hne
    simp only [calculateAverageRating, h, if_neg hlen]
    rw [foldl_classificacao]
    simp

/-- Witness for C2 at ratings `[4, 2]`: the general clause evaluates to the
rounded binary64 quotient of 6 by 2. -/
theorem calculateAverageRating_fp_witness :
    calculateAverageRating (some ev42) = .val (roundTo1 (fpDiv 6 2)) :=
  (calculateAverageRating_fp.1 ev42 [com4, com2] rfl).2 (by decide)

/-- C10: averageRating is total at the public interface: `'N/A'` on a
null/undefined event and on an event with no comment-sequence field. -/
theorem calculateAverageRating_total (e : Event) (h : e.comentarios = none) :
    calculateAverageRating none = .na ∧ calculateAverageRating (some e) = .na := by
  refine ⟨rfl, ?_⟩
  simp [calculateAverageRating, h]

/-- Witness for C10 at a concrete event whose comment field is absent. -/
theorem calculateAverageRating_total_witness :
    calculateAverageRating none = .na ∧ calculateAverageRating (some evNoComments) = .na :=
  calculateAverageRating_total evNoComments rfl

/-- C3 counterexample: an event dated 1969-12-31 (timestamp `-86400000`,
before the Unix epoch) is placed AFTER the date-less event, i.e. a date-less
event is not placed after every event that has a date. -/
theorem sortedEvents_dateless_precedes_dated :
    sortedEvents [evOld, evNoDate] = [evNoDate, evOld] ∧
    evNoDate.data = none ∧ evOld.data = some (-86400000) :=
  ⟨rfl, rfl, rfl⟩

/-- C3 (amended): sort arranges events descending by the key "parsed
timestamp if the event has a date, else 0" — so a date-less event follows
every event dated after the epoch but may precede one dated before it — the
output is a permutation of the input, and ties on the key (in particular all
date-less events) keep the input's relative order. -/
theorem sortedEvents_spec (l : List Event) :
    List.Perm (sortedEvents l) l ∧ (sortedEvents l).Sorted jsOrder ∧
    ∀ k : Int, keySlice k (sortedEvents l) = keySlice k l :=
  ⟨List.perm_insertionSort jsOrder l, List.sorted_insertionSort jsOrder l,
    fun k => keySlice_sortedEvents k l⟩

/-- C4: when exactly one event matches the targeted id, appendComment leaves
every other event unchanged and in place, and replaces the matching event by
a record identical except that the given comment is appended to its comment
sequence. -/
theorem appendComment_frame (s : AppState) (eventId : Nat) (c : Comment)
    (l1 l2 : List Event) (e : Event)
    (hev : s.events = l1 ++ e :: l2) (hid : e.id = eventId)
    (h1 : ∀ x ∈ l1, x.id ≠ eventId) (h2 : ∀ x ∈ l2, x.id ≠ eventId) :
    (handleSubmitNewComment s eventId (.ok c)).events =
      l1 ++ { e with comentarios := some (e.comentarios.getD [] ++ [c]) } :: l2 := by
  rw [handleSubmitNewComment_ok_events, hev]
  exact appendCommentToEvents_split eventId c l1 l2 e hid h1 h2

/-- Witness for C4: in a three-event collection, appending a comment to the
second event's id grows only that event's comment sequence. -/
theorem appendComment_frame_witness :
    (handleSubmitNewComment st3 2 (.ok comNew)).events = [wEv1, wEv2', wEv3] :=
  appendComment_frame st3 2 comNew [wEv1] [wEv3] wEv2 rfl rfl (by decide) (by decide)

/-- C5: appendEvent appends the created event at the end of the collection,
preserving all its fields except that a missing comment sequence is replaced
by a present-and-empty one. -/
theorem handleSubmitNewEvent_appends (s : AppState) (created : Event) :
    (handleSubmitNewEvent s (.ok created)).events = s.events ++ [withDefaultComments created] ∧
    (withDefaultComments created).id = created.id ∧
    (withDefaultComments created).nome = created.nome ∧
    (withDefaultComments created).data = created.data ∧
    (withDefaultComments created).duracao_qtd = created.duracao_qtd ∧
    (withDefaultComments created).duracao_tipo = created.duracao_tipo ∧
    (withDefaultComments created).comentarios = some (created.comentarios.getD []) ∧
    (created.comentarios = none → (withDefaultComments created).comentarios = some []) := by
  refine ⟨rfl, rfl, rfl, rfl, rfl, rfl, rfl, ?_⟩
  intro h
  simp [withDefaultComments, h]

/-- Witness for C5: a create-event response with no comment field yields an
appended event whose comment sequence is present and empty. -/
theorem handleSubmitNewEvent_appends_witness :
    (handleSubmitNewEvent st0 (.ok evNoComments)).events = [withDefaultComments evNoComments] ∧
    (withDefaultComments evNoComments).comentarios = some [] :=
  ⟨(handleSubmitNewEvent_appends st0 evNoComments).1,
    (handleSubmitNewEvent_appends st0 evNoComments).2.2.2.2.2.2.2 rfl⟩

/-- C7 counterexample: the three call sites store three different messages
('Failed to fetch events' / 'Failed to create event' / 'Failed to create
comment'), and a transport throw stores the thrown message, which differs
from the non-ok-status message of the same call — so the failures are not
all collapsed to one same message. -/
theorem requestFailure_messages_distinct :
    (fetchData st0 (.httpError 500)).error = some "Failed to fetch events" ∧
    (handleSubmitNewEvent st0 (.httpError 500)).error = some "Failed to create event" ∧
    (handleSubmitNewComment st0 1 (.httpError 500)).error = some "Failed to create comment" ∧
    (fetchData st0 (.httpError 500)).error ≠ (handleSubmitNewEvent st0 (.httpError 500)).error ∧
    (fetchData st0 (.transportError "Failed to fetch")).error ≠
      (fetchData st0 (.httpError 404)).error := by
  refine ⟨rfl, rfl, rfl, ?_, ?_⟩ <;> decide

/-- C7 (amended): every failing call stores exactly one message in the single
process-wide error slot; a non-success status is collapsed independently of
the status (no 4xx/5xx distinction) to a fixed per-call-site message, while a
transport/parsing throw stores the thrown message; the three call sites use
three distinct fixed messages rather than one shared one. -/
theorem requestFailure_collapse (s : AppState) (eventId : Nat) (st st' : Nat) (m : String) :
    (fetchData s (.httpError st)).error = some "Failed to fetch events" ∧
    (fetchData s (.httpError st)).error = (fetchData s (.httpError st')).error ∧
    (fetchData s (.transportError m)).error = some m ∧
    (handleSubmitNewEvent s (.httpError st)).error = some "Failed to create event" ∧
    (handleSubmitNewEvent s (.httpError st)).error =
      (handleSubmitNewEvent s (.httpError st')).error ∧
    (handleSubmitNewEvent s (.transportError m)).error = some m ∧
    (handleSubmitNewComment s eventId (.httpError st)).error = some "Failed to create comment" ∧
    (handleSubmitNewComment s eventId (.httpError st)).error =
      (handleSubmitNewComment s eventId (.httpError st')).error ∧
    (handleSubmitNewComment s eventId (.transportError m)).error = some m :=
  ⟨rfl, rfl, rfl, rfl, rfl, rfl, rfl, rfl, rfl⟩

/-- C9: when a create-event or create-comment request fails (non-ok status or
transport/parsing throw), the event collection is left unchanged and the
error is recorded. -/
theorem createFailure_atomic (s : AppState) (eventId : Nat) (st : Nat) (m : String) :
    ((handleSubmitNewEvent s (.httpError st)).events = s.events ∧
      (handleSubmitNewEvent s (.httpError st)).error = some "Failed to create event") ∧
    ((handleSubmitNewEvent s (.transportError m)).events = s.events ∧
      (handleSubmitNewEvent s (.transportError m)).error = some m) ∧
    ((handleSubmitNewComment s eventId (.httpError st)).events = s.events ∧
      (handleSubmitNewComment s eventId (.httpError st)).error =
        some "Failed to create comment") ∧
    ((handleSubmitNewComment s eventId (.transportError m)).events = s.events ∧
      (handleSubmitNewComment s eventId (.transportError m)).error = some m) :=
  ⟨⟨rfl, rfl⟩, ⟨rfl, rfl⟩, ⟨rfl, rfl⟩, ⟨rfl, rfl⟩⟩

/-- C8: if the selected event targets the commented id and its comment
sequence agrees with that of every collection event carrying that id, then
after a successful appendComment the new selected event's comment sequence
equals the comment sequence of every event carrying that id in the updated
collection — the selected event stays in sync. -/
theorem selectedEvent_sync (s : AppState) (eventId : Nat) (c : Comment) (sel : Event)
    (hsel : s.selectedEvent = some sel) (hid : sel.id = eventId)
    (hsync : ∀ e ∈ s.events, e.id = eventId →
      e.comentarios.getD [] = sel.comentarios.getD []) :
    ∃ sel', (handleSubmitNewComment s eventId (.ok c)).selectedEvent = some sel' ∧
      sel'.comentarios = some (sel.comentarios.getD [] ++ [c]) ∧
      ∀ e' ∈ (handleSubmitNewComment s eventId (.ok c)).events, e'.id = eventId →
        e'.comentarios = sel'.comentarios := by
  refine ⟨{ sel with comentarios := some (sel.comentarios.getD [] ++ [c]) }, ?_, rfl, ?_⟩
  · simp [handleSubmitNewComment, hsel, hid]
  · intro e' he' hide
    rw [handleSubmitNewComment_ok_events] at he'
    rcases List.mem_map.mp he' with ⟨x, hx, hfx⟩
    by_cases hxid : x.id = eventId
    · rw [if_pos hxid] at hfx
      rw [← hfx]
      show some (x.comentarios.getD [] ++ [c]) = some (sel.comentarios.getD [] ++ [c])
      rw [hsync x hx hxid]
    · rw [if_neg hxid] at hfx
      rw [← hfx] at hide
      exact absurd hide hxid

/-- Witness for C8: in the three-event state with the second event selected,
a successful comment creation keeps the selected event in sync with the
collection. -/
theorem selectedEvent_sync_witness :
    ∃ sel', (handleSubmitNewComment st3 2 (.ok comNew)).selectedEvent = some sel' ∧
      sel'.comentarios = some (wEv2.comentarios.getD [] ++ [comNew]) ∧
      ∀ e' ∈ (handleSubmitNewComment st3 2 (.ok comNew)).events, e'.id = 2 →
        e'.comentarios = sel'.comentarios :=
  selectedEvent_sync st3 2 comNew wEv2 rfl rfl (by decide)
